import Mathlib

/-!
Verification of the machine-scope layer (`internal/service/../scope/machine.go`,
package `scope`) of the cluster-api-provider-ionoscloud controller.

The Go source is shallowly embedded: pure record types become Lean structures,
store calls become explicit function parameters, and errors become `Except`.
Creation timestamps (`metav1.Time`) are modelled as natural numbers; the
source's `CreationTimestamp.Before` is strict `<` on those numbers.
-/

set_option autoImplicit false

namespace Scope

/-- A status condition on a record (`clusterv1.Condition`): a named flag with a
truth status.  Severity, reasons and transition times are irrelevant to the
properties below and omitted. -/
structure Condition where
  condType : String
  status : Bool
  deriving DecidableEq, Repr

/-- `infrav1.IonosCloudMachineSpec`: the fields this layer touches. -/
structure IonosCloudMachineSpec where
  datacenterID : String
  providerID : Option String
  deriving DecidableEq, Repr

/-- `infrav1.IonosCloudMachineStatus`: failure fields and the condition set. -/
structure IonosCloudMachineStatus where
  failureReason : Option String
  failureMessage : Option String
  conditions : List Condition
  deriving DecidableEq, Repr

/-- `infrav1.IonosCloudMachine`: the provider-specific machine record.
Identity is the object name; sibling queries are namespace-scoped. -/
structure IonosCloudMachine where
  name : String
  namespaceName : String
  creationTimestamp : Nat
  spec : IonosCloudMachineSpec
  status : IonosCloudMachineStatus
  deriving DecidableEq, Repr

/-- A plain record with the given name and creation timestamp and all other
fields at their zero values, as produced by constructing the Go struct with
only those fields set. -/
def mkMachine (n : String) (ts : Nat) : IonosCloudMachine :=
  { name := n
    namespaceName := "default"
    creationTimestamp := ts
    spec := { datacenterID := "", providerID := none }
    status := { failureReason := none, failureMessage := none, conditions := [] } }

/-- `clusterv1.Machine`: the Cluster API machine record; only the bootstrap
data-secret reference and the creation timestamp are consumed here. -/
structure ClusterAPIMachine where
  bootstrapDataSecretName : Option String
  creationTimestamp : Nat
  deriving DecidableEq, Repr

/-- `scope.Cluster`: the owning cluster scope handle.  Its own behaviour
(`ListMachines`) is an external collaborator; only its presence matters to
the claims below. -/
structure Cluster where
  clusterName : String
  deriving DecidableEq, Repr

/-- `client.ObjectKey`: a namespaced name used for point lookups. -/
structure ObjectKey where
  name : String
  namespaceName : String
  deriving DecidableEq, Repr

/-- `corev1.Secret`: the bootstrap data secret returned by lookups. -/
structure Secret where
  name : String
  namespaceName : String
  data : List (String × String)
  deriving DecidableEq, Repr

/-- The resource-store client (`client.Client`), reduced to the single
operation this file's claims exercise: a point lookup of a secret. -/
structure StoreClient where
  getSecret : ObjectKey → Except String Secret

/-- `patch.Helper`: captures a snapshot of the object at scope-creation time;
on commit it diffs the current object against that snapshot.  The snapshot is
the only state it carries. -/
structure PatchHelper where
  beforeObject : IonosCloudMachine

/-- `scope.Machine`: the per-reconciliation machine scope (machine.go:38). -/
structure Machine where
  client : StoreClient
  patchHelper : PatchHelper
  machine : ClusterAPIMachine
  ionosMachine : IonosCloudMachine
  clusterScope : Cluster

/-- `scope.MachineParams` (machine.go:49): inputs to `NewMachine`; absence of
a Go pointer is `none`. -/
structure MachineParams where
  client : Option StoreClient
  machine : Option ClusterAPIMachine
  clusterScope : Option Cluster
  ionosMachine : Option IonosCloudMachine

/-- `scope.NewMachine` (machine.go:57): validates the four params in source
order and, on success, builds the scope with a fresh patch-helper snapshot of
the IonosCloudMachine.  `patch.NewHelper` succeeds on any non-nil object and
client, so its error branch is unreachable here and the snapshot capture is
embedded directly. -/
def NewMachine (params : MachineParams) : Except String Machine :=
  match params.client with
  | none => .error "machine scope params lack a client"
  | some c =>
    match params.machine with
    | none => .error "machine scope params lack a Cluster API machine"
    | some mach =>
      match params.ionosMachine with
      | none => .error "machine scope params lack a IONOS Cloud machine"
      | some im =>
        match params.clusterScope with
        | none => .error "machine scope params need a IONOS Cloud cluster scope"
        | some cs =>
          .ok { client := c
                patchHelper := { beforeObject := im }
                machine := mach
                ionosMachine := im
                clusterScope := cs }

/-- The loop body of `FindLatestMachine` (machine.go:152-156): scan the list,
replacing the running candidate whenever the element's creation timestamp is
not earlier than the candidate's and the element is not the scope's own
machine. -/
def findLatestLoop (selfName : String) (latest : IonosCloudMachine) :
    List IonosCloudMachine → IonosCloudMachine
  | [] => latest
  | m :: rest =>
    if ¬ m.creationTimestamp < latest.creationTimestamp ∧ m.name ≠ selfName then
      findLatestLoop selfName m rest
    else
      findLatestLoop selfName latest rest

/-- `scope.Machine.FindLatestMachine` (machine.go:138-162), with the sibling
list returned by `ClusterScope.ListMachines` passed explicitly (that call is
an external collaborator).  Returns `none` for lists of length ≤ 1, otherwise
scans with the candidate initialised to the first element and suppresses a
candidate equal to the scope's own machine. -/
def FindLatestMachine (selfName : String) (machines : List IonosCloudMachine) :
    Option IonosCloudMachine :=
  if machines.length ≤ 1 then
    none
  else
    match machines with
    | [] => none
    | m0 :: _ =>
      let latest := findLatestLoop selfName m0 machines
      if latest.name = selfName then none else some latest

/-- `ptr.Deref`: dereference an optional string, falling back to a default. -/
def ptrDeref (p : Option String) (d : String) : String := p.getD d

/-- The error outcomes of `GetBootstrapDataSecret`: the machine has no
bootstrap data yet (machine.go:89), or the store's own error, carried
unchanged. -/
inductive GetSecretError where
  | noBootstrapData
  | storeError (e : String)
  deriving DecidableEq, Repr

/-- The `name` local at machine.go:87: the bootstrap-data reference,
defaulting to the empty string when the pointer is nil. -/
def bootstrapSecretName (m : Machine) : String :=
  ptrDeref m.machine.bootstrapDataSecretName ""

/-- The `key` local at machine.go:91-94: reference as name, the
IonosCloudMachine's namespace as namespace. -/
def bootstrapSecretKey (m : Machine) : ObjectKey :=
  { name := bootstrapSecretName m, namespaceName := m.ionosMachine.namespaceName }

/-- `scope.Machine.GetBootstrapDataSecret` (machine.go:86-106): read the
bootstrap reference off the Cluster API machine; an empty reference is the
`noBootstrapData` error, otherwise a single point lookup keyed by
`bootstrapSecretKey`.  The second component logs the store lookups
performed, in order, so lookup counts are provable. -/
def GetBootstrapDataSecret (m : Machine) :
    Except GetSecretError Secret × List ObjectKey :=
  if bootstrapSecretName m = "" then
    (.error .noBootstrapData, [])
  else
    match m.client.getSecret (bootstrapSecretKey m) with
    | .ok s => (.ok s, [bootstrapSecretKey m])
    | .error e => (.error (.storeError e), [bootstrapSecretKey m])

/-- `scope.Machine.HasFailed` (machine.go:165-168): pure predicate on the
IonosCloudMachine status. -/
def HasFailed (m : Machine) : Bool :=
  m.ionosMachine.status.failureReason.isSome || m.ionosMachine.status.failureMessage.isSome

/-- `clusterv1.ReadyCondition`: the type of the derived summary condition. -/
def ReadyCondition : String := "Ready"

/-- `infrav1.MachineProvisionedCondition` (machine.go:175). -/
def MachineProvisionedCondition : String := "MachineProvisioned"

/-- First condition of the given type in a condition set (`conditions.Get`). -/
def getCondition (cs : List Condition) (t : String) : Option Condition :=
  cs.find? fun c => c.condType == t

/-- Replace the first condition of the same type, or append
(`conditions.Set`). -/
def setCondition (cs : List Condition) (c : Condition) : List Condition :=
  match cs with
  | [] => [c]
  | x :: rest => if x.condType == c.condType then c :: rest else x :: setCondition rest c

/-- Modelled from the spec: `conditions.SetSummary` (an external cluster-api
utility, called at machine.go:173) recomputes the derived Ready-summary
condition from the listed source condition types and stores it as the
`Ready` condition: the summary is true exactly when every listed source
condition is present and true (spec §3: "a derived Ready-summary condition
is recomputed from a fixed subset of conditions"; §4.7). -/
def SetSummary (sourceTypes : List String) (m : IonosCloudMachine) : IonosCloudMachine :=
  let summary := sourceTypes.all fun t =>
    ((getCondition m.status.conditions t).map Condition.status).getD false
  { m with status := { m.status with
      conditions := setCondition m.status.conditions
        { condType := ReadyCondition, status := summary } } }

/-- The condition types handed to `conditions.WithConditions` at
machine.go:174-175: the source subset the Ready summary is computed from. -/
def patchObjectSummarySourceConditions : List String := [MachineProvisionedCondition]

/-- The owned-condition types declared to `patch.Helper.Patch` at
machine.go:186-189. -/
def patchObjectOwnedConditions : List String := [ReadyCondition, MachineProvisionedCondition]

/-- A computed patch: spec and status as two logically separate sub-patches
(the status is a distinct subresource in the store). -/
structure PatchDiff where
  spec : Option IonosCloudMachineSpec
  status : Option IonosCloudMachineStatus
  deriving DecidableEq, Repr

/-- Modelled from the spec: the patch helper's diff computation (§2, §4.7) —
a sub-patch is present exactly when the current object differs from the
construction-time snapshot on that subresource. -/
def computeDiff (snapshot current : IonosCloudMachine) : PatchDiff :=
  { spec := if current.spec = snapshot.spec then none else some current.spec
    status := if current.status = snapshot.status then none else some current.status }

/-- Modelled from the spec: applying a diff to the store's copy of the object
overwrites exactly the subresources the diff carries (§4.7). -/
def applyDiff (d : PatchDiff) (store : IonosCloudMachine) : IonosCloudMachine :=
  { store with spec := d.spec.getD store.spec, status := d.status.getD store.status }

/-- `scope.Machine.PatchObject` (machine.go:172-190): recompute the Ready
summary via `SetSummary` over `patchObjectSummarySourceConditions`, then let
the patch helper diff the record against its construction-time snapshot and
apply the diff to the store's copy.  Returns the record as committed and the
store state after the patch.  (The 10-second deadline and the deliberately
fresh context at machine.go:177-185 are real-time concerns not modelled.) -/
def PatchObject (helper : PatchHelper) (im store : IonosCloudMachine) :
    IonosCloudMachine × IonosCloudMachine :=
  let committed := SetSummary patchObjectSummarySourceConditions im
  (committed, applyDiff (computeDiff helper.beforeObject committed) store)

/-- machine.go:199: `shouldRetry := func(error) bool { return true }`. -/
def shouldRetry (_ : String) : Bool := true

/-- A bounded exponential backoff policy (`wait.Backoff`, jitter omitted). -/
structure Backoff where
  steps : Nat
  duration : Nat
  factor : Nat
  deriving DecidableEq, Repr

/-- Modelled from the spec: `retry.DefaultBackoff`, the bounded exponential
policy used at machine.go:201 — 4 steps, 10ms base delay, factor 5. -/
def DefaultBackoff : Backoff := { steps := 4, duration := 10, factor := 5 }

/-- The backoff sleep preceding retry number `i + 1`: exponential in `i`. -/
def backoffDelay (b : Backoff) (i : Nat) : Nat := b.duration * b.factor ^ i

/-- Modelled from the spec: `retry.OnError` (the RetryPolicy executor, §2 and
§4.8) — run the operation up to `steps` times, stopping at the first success;
when an attempt's error is rejected by the predicate, or the schedule is
exhausted, surface the last error.  The operation's outcome on its `i`-th
invocation is abstracted as `att i`. -/
def retryOnError (retriable : String → Bool) (att : Nat → Except String Unit) :
    Nat → Nat → Except String Unit
  | _, 0 => .error "retry: no attempts permitted"
  | i, s + 1 =>
    match att i with
    | .ok _ => .ok ()
    | .error e =>
      if retriable e then
        match s with
        | 0 => .error e
        | s' + 1 => retryOnError retriable att (i + 1) (s' + 1)
      else .error e

/-- `scope.Machine.Finalize` (machine.go:195-204): retry the commit operation
under `retry.DefaultBackoff` with the always-true retry predicate.  The
commit's outcome per attempt is abstracted as `patchAttempts`. -/
def Finalize (patchAttempts : Nat → Except String Unit) : Except String Unit :=
  retryOnError shouldRetry patchAttempts 0 DefaultBackoff.steps

/-- A concrete secret, for witnesses. -/
def exampleSecret : Secret :=
  { name := "boot", namespaceName := "ns", data := [("value", "cloud-init")] }

/-- A concrete store client serving exactly `exampleSecret`, for witnesses. -/
def exampleClient : StoreClient :=
  ⟨fun k => if k = { name := "boot", namespaceName := "ns" } then .ok exampleSecret
            else .error "secret not found"⟩

/-- A concrete Cluster API machine referencing bootstrap secret "boot". -/
def exampleGenericMachine : ClusterAPIMachine :=
  { bootstrapDataSecretName := some "boot", creationTimestamp := 0 }

/-- A concrete IonosCloudMachine in namespace "ns". -/
def exampleIonosMachine : IonosCloudMachine :=
  { mkMachine "m1" 0 with namespaceName := "ns" }

/-- A concrete cluster scope handle. -/
def exampleCluster : Cluster := ⟨"test-cluster"⟩

/-- Fully populated construction params, for witnesses. -/
def exampleParams : MachineParams :=
  { client := some exampleClient
    machine := some exampleGenericMachine
    clusterScope := some exampleCluster
    ionosMachine := some exampleIonosMachine }

/-- The machine scope built from `exampleParams`, for witnesses. -/
def exampleMachine : Machine :=
  { client := exampleClient
    patchHelper := { beforeObject := exampleIonosMachine }
    machine := exampleGenericMachine
    ionosMachine := exampleIonosMachine
    clusterScope := exampleCluster }

/-- A commit-outcome sequence whose first two attempts conflict and whose
third succeeds, for witnesses. -/
def exampleAttempts : Nat → Except String Unit :=
  fun i => if i = 2 then .ok () else .error "the object has been modified"

/-- A status with MachineProvisioned true but a stale Ready condition still
false, for separating candidate summary source subsets. -/
def staleReadyStatus : IonosCloudMachineStatus :=
  { failureReason := none
    failureMessage := none
    conditions := [⟨"MachineProvisioned", true⟩, ⟨"Ready", false⟩] }

/-- A record carrying `staleReadyStatus`. -/
def staleReadyMachine : IonosCloudMachine :=
  { mkMachine "m1" 0 with status := staleReadyStatus }

/-- The summary source subset exactly as claim C1 words it:
{MachineProvisioned, Ready}. -/
def claimedSummarySourceConditions : List String :=
  [MachineProvisionedCondition, ReadyCondition]

/-! ## Theorems -/

/-- Looking up the just-set condition type returns the set condition. -/
theorem getCondition_setCondition_self (cs : List Condition) (c : Condition) :
    getCondition (setCondition cs c) c.condType = some c := by
  induction cs with
  | nil => simp [getCondition, setCondition]
  | cons x rest ih =>
    by_cases h : x.condType == c.condType
    · simp [getCondition, setCondition, h]
    · simp only [setCondition, h, if_false, Bool.false_eq_true]
      simpa [getCondition, h] using ih

/-- Setting a condition leaves lookups of every other type unchanged. -/
theorem getCondition_setCondition_other (cs : List Condition) (c : Condition) (t : String)
    (ht : t ≠ c.condType) :
    getCondition (setCondition cs c) t = getCondition cs t := by
  have hc : (c.condType == t) = false := by
    rw [beq_eq_false_iff_ne]
    exact Ne.symm ht
  induction cs with
  | nil => simp [getCondition, setCondition, hc]
  | cons x rest ih =>
    by_cases h : x.condType == c.condType
    · have hx : (x.condType == t) = false := by
        rw [beq_eq_false_iff_ne]
        have hxe : x.condType = c.condType := by simpa using h
        rw [hxe]
        exact Ne.symm ht
      simp [getCondition, setCondition, h, hc, hx]
    · by_cases hxt : x.condType == t
      · simp [getCondition, setCondition, h, hxt]
      · simp only [getCondition, setCondition, h, if_false, Bool.false_eq_true, List.find?,
          hxt] at ih ⊢
        exact ih

/-- Re-setting the identical condition is a no-op. -/
theorem setCondition_idem (cs : List Condition) (c : Condition) :
    setCondition (setCondition cs c) c = setCondition cs c := by
  induction cs with
  | nil => simp [setCondition]
  | cons x rest ih =>
    by_cases h : x.condType == c.condType
    · simp [setCondition, h]
    · simp [setCondition, h, ih]

/-- Recomputing the Ready summary twice from the MachineProvisioned source
subset equals recomputing it once. -/
theorem setSummary_idem (m : IonosCloudMachine) :
    SetSummary patchObjectSummarySourceConditions
        (SetSummary patchObjectSummarySourceConditions m) =
      SetSummary patchObjectSummarySourceConditions m := by
  simp only [SetSummary, patchObjectSummarySourceConditions, List.all_cons, List.all_nil,
    Bool.and_true]
  rw [getCondition_setCondition_other]
  · rw [setCondition_idem]
  · simp [MachineProvisionedCondition, ReadyCondition]

/-- Applying the same diff twice leaves the store where one application put
it. -/
theorem applyDiff_idem (d : PatchDiff) (s : IonosCloudMachine) :
    applyDiff d (applyDiff d s) = applyDiff d s := by
  obtain ⟨ds, dst⟩ := d
  cases ds <;> cases dst <;> simp [applyDiff]

/-- C10: FindLatestMachine is order-dependent even with pairwise distinct
timestamps: with the scope's own record "m1"@2 holding the strictly latest
timestamp, the scan returns `none` when the own record comes first, but the
strictly older sibling "m2"@1 when the own record comes last. -/
theorem findLatestMachine_order_dependent :
    FindLatestMachine "m1" [mkMachine "m1" 2, mkMachine "m2" 1] = none ∧
    FindLatestMachine "m1" [mkMachine "m2" 1, mkMachine "m1" 2] = some (mkMachine "m2" 1) ∧
    (mkMachine "m2" 1).creationTimestamp < (mkMachine "m1" 2).creationTimestamp :=
  ⟨rfl, rfl, by decide⟩

/-- C2 counterexample: in a list holding the scope's own record "m1"@2 and one
other machine "m2"@1 where the own record has the strictly later timestamp,
FindLatestMachine returns `none` rather than the strictly later machine. -/
theorem findLatestMachine_later_counterexample :
    (mkMachine "m2" 1).creationTimestamp < (mkMachine "m1" 2).creationTimestamp ∧
    FindLatestMachine "m1" [mkMachine "m1" 2, mkMachine "m2" 1] = none :=
  ⟨by decide, rfl⟩

/-- C2 (amended): when the machine that holds the strictly later creation
timestamp is the one that differs from the scope's own record,
FindLatestMachine returns it, in either presentation order of the
two-element list. -/
theorem findLatestMachine_sibling_later (self other : IonosCloudMachine)
    (hname : other.name ≠ self.name)
    (hts : self.creationTimestamp < other.creationTimestamp) :
    FindLatestMachine self.name [self, other] = some other ∧
    FindLatestMachine self.name [other, self] = some other := by
  have hfirst : ¬ other.creationTimestamp < self.creationTimestamp ∧ other.name ≠ self.name :=
    ⟨by omega, hname⟩
  have hsecond : ¬ other.creationTimestamp < other.creationTimestamp ∧ other.name ≠ self.name :=
    ⟨by omega, hname⟩
  constructor
  · unfold FindLatestMachine
    rw [if_neg (by simp)]
    simp only [findLatestLoop]
    rw [if_neg (show ¬ (¬ self.creationTimestamp < self.creationTimestamp ∧
          self.name ≠ self.name) by simp),
        if_pos hfirst, if_neg hname]
  · unfold FindLatestMachine
    rw [if_neg (by simp)]
    simp only [findLatestLoop]
    rw [if_pos hsecond,
        if_neg (show ¬ (¬ self.creationTimestamp < other.creationTimestamp ∧
          self.name ≠ self.name) by simp),
        if_neg hname]

/-- C2 witness: for own record "m1"@0 and sibling "m2"@1, both orders
return "m2"@1. -/
theorem findLatestMachine_sibling_later_witness :
    FindLatestMachine "m1" [mkMachine "m1" 0, mkMachine "m2" 1] = some (mkMachine "m2" 1) ∧
    FindLatestMachine "m1" [mkMachine "m2" 1, mkMachine "m1" 0] = some (mkMachine "m2" 1) :=
  findLatestMachine_sibling_later (mkMachine "m1" 0) (mkMachine "m2" 1) (by decide) (by decide)

/-- C3: FindLatestMachine never returns a machine named like the scope's own
record, and whenever the scan's surviving candidate is the own record the
result is `none`. -/
theorem findLatestMachine_never_self (selfName : String) (ms : List IonosCloudMachine) :
    (∀ r, FindLatestMachine selfName ms = some r → r.name ≠ selfName) ∧
    (∀ m0 rest, ms = m0 :: rest →
      (findLatestLoop selfName m0 ms).name = selfName →
      FindLatestMachine selfName ms = none) := by
  constructor
  · intro r hr
    unfold FindLatestMachine at hr
    split at hr
    · exact absurd hr (by simp)
    · match ms, hr with
      | m0 :: rest, hr =>
        simp only at hr
        split at hr
        · exact absurd hr (by simp)
        · next h =>
          cases hr
          exact h
  · intro m0 rest hms hname
    subst hms
    unfold FindLatestMachine
    split
    · rfl
    · simp only
      rw [if_pos hname]

/-- C3 witness: in the list ["m1"@0, "m2"@1] scanned for own record "m1",
the returned machine's name differs from "m1". -/
theorem findLatestMachine_never_self_witness :
    (mkMachine "m2" 1).name ≠ "m1" :=
  (findLatestMachine_never_self "m1" [mkMachine "m1" 0, mkMachine "m2" 1]).1
    (mkMachine "m2" 1) rfl

/-- C7: HasFailed is true exactly when FailureReason or FailureMessage is set
on the IonosCloudMachine status, and is false on a freshly constructed scope
whose record has neither set; it is a pure predicate. -/
theorem hasFailed_iff (m : Machine) :
    (HasFailed m = true ↔
      (m.ionosMachine.status.failureReason ≠ none ∨
       m.ionosMachine.status.failureMessage ≠ none)) ∧
    HasFailed exampleMachine = false := by
  refine ⟨?_, rfl⟩
  simp [HasFailed, Option.isSome_iff_ne_none]

/-- C4: NewMachine fails exactly when at least one of the four required
params is absent, and with all four supplied it succeeds with a scope whose
fields are the inputs unchanged, the patch helper holding a snapshot of the
supplied IonosCloudMachine. -/
theorem newMachine_validation (p : MachineParams) :
    ((p.client = none ∨ p.machine = none ∨ p.ionosMachine = none ∨ p.clusterScope = none) ↔
      ∃ e, NewMachine p = .error e) ∧
    (∀ c gm cs im, p = ⟨some c, some gm, some cs, some im⟩ →
      NewMachine p = .ok ⟨c, ⟨im⟩, gm, im, cs⟩) := by
  obtain ⟨oc, om, ocs, oim⟩ := p
  constructor
  · cases oc <;> cases om <;> cases oim <;> cases ocs <;> simp [NewMachine]
  · intro c gm cs im h
    injection h with h1 h2 h3 h4
    subst h1
    subst h2
    subst h3
    subst h4
    rfl

/-- C4 witness: the fully populated example params construct a scope carrying
exactly the example inputs. -/
theorem newMachine_validation_witness :
    NewMachine exampleParams = .ok exampleMachine :=
  (newMachine_validation exampleParams).2 exampleClient exampleGenericMachine
    exampleCluster exampleIonosMachine rfl

/-- C6: GetBootstrapDataSecret fails with `noBootstrapData` and performs no
store lookup exactly when the bootstrap reference is empty; otherwise it
performs exactly one lookup, keyed by the reference and the
IonosCloudMachine's namespace, and returns the store's secret or the store's
error carried unchanged. -/
theorem getBootstrapDataSecret_spec (m : Machine) :
    (bootstrapSecretName m = "" ↔
      GetBootstrapDataSecret m = (.error .noBootstrapData, [])) ∧
    (bootstrapSecretName m ≠ "" →
      (GetBootstrapDataSecret m).2 = [bootstrapSecretKey m] ∧
      bootstrapSecretKey m =
        ⟨bootstrapSecretName m, m.ionosMachine.namespaceName⟩ ∧
      (∀ s, m.client.getSecret (bootstrapSecretKey m) = .ok s →
        (GetBootstrapDataSecret m).1 = .ok s) ∧
      (∀ e, m.client.getSecret (bootstrapSecretKey m) = .error e →
        (GetBootstrapDataSecret m).1 = .error (.storeError e))) := by
  by_cases h : bootstrapSecretName m = ""
  · refine ⟨⟨fun _ => ?_, fun _ => h⟩, fun hn => absurd h hn⟩
    simp [GetBootstrapDataSecret, h]
  · refine ⟨⟨fun hh => absurd hh h, fun hres => ?_⟩, fun _ => ⟨?_, rfl, ?_, ?_⟩⟩
    · exfalso
      revert hres
      simp only [GetBootstrapDataSecret, if_neg h]
      cases m.client.getSecret (bootstrapSecretKey m) <;> simp
    · simp only [GetBootstrapDataSecret, if_neg h]
      cases m.client.getSecret (bootstrapSecretKey m) <;> simp
    · intro s hs
      simp only [GetBootstrapDataSecret, if_neg h, hs]
    · intro e he
      simp only [GetBootstrapDataSecret, if_neg h, he]

/-- C6 witness: the example scope's reference "boot" is non-empty, its single
lookup is keyed ("boot", "ns"), and the example store's secret is returned. -/
theorem getBootstrapDataSecret_spec_witness :
    (GetBootstrapDataSecret exampleMachine).2 = [{ name := "boot", namespaceName := "ns" }] ∧
    (GetBootstrapDataSecret exampleMachine).1 = .ok exampleSecret := by
  have h := (getBootstrapDataSecret_spec exampleMachine).2 (by decide)
  exact ⟨h.1, h.2.2.1 exampleSecret rfl⟩

/-- C1 counterexample: on a record whose MachineProvisioned condition is true
while the stale Ready condition is still false, the commit path recomputes
Ready to true, whereas a summary computed from the claim's subset
{MachineProvisioned, Ready} would leave it false — so the summary is not
recomputed from that subset. -/
theorem patchObject_summary_counterexample :
    getCondition (PatchObject ⟨mkMachine "m1" 0⟩ staleReadyMachine
        (mkMachine "m1" 0)).1.status.conditions ReadyCondition =
      some ⟨ReadyCondition, true⟩ ∧
    getCondition (SetSummary claimedSummarySourceConditions
        staleReadyMachine).status.conditions ReadyCondition =
      some ⟨ReadyCondition, false⟩ ∧
    patchObjectSummarySourceConditions ≠ claimedSummarySourceConditions :=
  ⟨rfl, rfl, by decide⟩

/-- C1 (amended): before every commit, PatchObject recomputes the derived
Ready-summary condition on the record from exactly the fixed source subset
{MachineProvisioned} — the committed record's Ready condition equals the
summary of the current MachineProvisioned condition, whatever Ready held
before — while {Ready, MachineProvisioned} is the owned-conditions subset
declared to the patch helper, not the summary's source subset. -/
theorem patchObject_summary_recompute (helper : PatchHelper) (im store : IonosCloudMachine) :
    getCondition (PatchObject helper im store).1.status.conditions ReadyCondition =
      some ⟨ReadyCondition,
        ((getCondition im.status.conditions MachineProvisionedCondition).map
          Condition.status).getD false⟩ ∧
    patchObjectSummarySourceConditions = [MachineProvisionedCondition] ∧
    patchObjectOwnedConditions = [ReadyCondition, MachineProvisionedCondition] := by
  refine ⟨?_, rfl, rfl⟩
  simp only [PatchObject, SetSummary, patchObjectSummarySourceConditions, List.all_cons,
    List.all_nil, Bool.and_true]
  exact getCondition_setCondition_self _ _

/-- C9: a second PatchObject with no mutation of the record in between is a
no-op — the recomputed summary, the diff against the construction-time
snapshot, and the store state all coincide with the first commit's. -/
theorem patchObject_idempotent (helper : PatchHelper) (im store : IonosCloudMachine) :
    PatchObject helper (PatchObject helper im store).1 (PatchObject helper im store).2 =
      PatchObject helper im store := by
  simp only [PatchObject]
  rw [setSummary_idem, applyDiff_idem]

/-- One retry step: a successful attempt ends the loop with success. -/
theorem retryOnError_step_ok (r : String → Bool) (att : Nat → Except String Unit)
    (i s : Nat) (hok : att i = .ok ()) :
    retryOnError r att i (s + 1) = .ok () := by
  conv_lhs => rw [retryOnError]
  rw [hok]

/-- One retry step: a retriable error on the final permitted attempt is
surfaced. -/
theorem retryOnError_step_error_last (r : String → Bool) (att : Nat → Except String Unit)
    (i : Nat) (e : String) (he : att i = .error e) (hre : r e = true) :
    retryOnError r att i 1 = .error e := by
  conv_lhs => rw [retryOnError]
  simp only [he, hre, if_true]

/-- One retry step: a retriable error with budget remaining recurses on the
next attempt. -/
theorem retryOnError_step_error (r : String → Bool) (att : Nat → Except String Unit)
    (i s : Nat) (e : String) (he : att i = .error e) (hre : r e = true) :
    retryOnError r att i (s + 2) = retryOnError r att (i + 1) (s + 1) := by
  conv_lhs => rw [retryOnError]
  simp only [he, hre, if_true]

/-- When every error is retriable and attempt `k` (counting from `i`) is the
first success inside the budget of `s` attempts, the retry loop succeeds. -/
theorem retryOnError_first_ok (att : Nat → Except String Unit) (r : String → Bool)
    (hr : ∀ e, r e = true) :
    ∀ s i k, k < s → att (i + k) = .ok () →
      (∀ j, j < k → ∃ e, att (i + j) = .error e) →
      retryOnError r att i s = .ok () := by
  intro s
  induction s with
  | zero =>
    intro i k hk
    exact absurd hk (Nat.not_lt_zero k)
  | succ s ih =>
    intro i k hk hok hprev
    cases k with
    | zero =>
      rw [Nat.add_zero] at hok
      exact retryOnError_step_ok r att i s hok
    | succ k' =>
      obtain ⟨e, he⟩ := hprev 0 k'.succ_pos
      rw [Nat.add_zero] at he
      cases s with
      | zero => omega
      | succ s'' =>
        rw [retryOnError_step_error r att i s'' e he (hr e)]
        have h1 : i + 1 + k' = i + (k' + 1) := by omega
        exact ih (i + 1) k' (by omega) (by rw [h1]; exact hok)
          (fun j hj => by
            have h2 : i + 1 + j = i + (j + 1) := by omega
            rw [h2]
            exact hprev (j + 1) (by omega))

/-- When every error is retriable and every attempt in the budget fails, the
retry loop surfaces the last attempt's error. -/
theorem retryOnError_exhausted (att : Nat → Except String Unit) (r : String → Bool)
    (hr : ∀ e, r e = true) (f : Nat → String) :
    ∀ s i, 0 < s → (∀ k, k < s → att (i + k) = .error (f (i + k))) →
      retryOnError r att i s = .error (f (i + s - 1)) := by
  intro s
  induction s with
  | zero =>
    intro i h0
    exact absurd h0 (Nat.lt_irrefl 0)
  | succ s ih =>
    intro i _ hall
    have he : att i = .error (f i) := by simpa using hall 0 (Nat.succ_pos s)
    cases s with
    | zero =>
      simpa using retryOnError_step_error_last r att i (f i) he (hr (f i))
    | succ s'' =>
      rw [retryOnError_step_error r att i s'' (f i) he (hr (f i))]
      have h1 := ih (i + 1) (Nat.succ_pos s'') (fun k hk => by
        have h2 : i + 1 + k = i + (k + 1) := by omega
        rw [h2]
        exact hall (k + 1) (by omega))
      have h3 : i + 1 + (s'' + 1) - 1 = i + (s'' + 1 + 1) - 1 := by omega
      rw [h3] at h1
      exact h1

/-- C5: Finalize's retry predicate accepts every error; the loop returns
success as soon as one commit attempt succeeds within the bounded schedule;
when every attempt of the bounded schedule fails it surfaces the last commit
error to the caller; and the backoff delays grow exponentially, scaling by
the policy factor each step up to the configured step bound. -/
theorem finalize_retry_spec (att : Nat → Except String Unit) :
    (∀ e, shouldRetry e = true) ∧
    (∀ k, k < DefaultBackoff.steps → att k = .ok () →
      (∀ j, j < k → ∃ e, att j = .error e) → Finalize att = .ok ()) ∧
    (∀ f : Nat → String, (∀ k, k < DefaultBackoff.steps → att k = .error (f k)) →
      Finalize att = .error (f (DefaultBackoff.steps - 1))) ∧
    (∀ i, backoffDelay DefaultBackoff (i + 1) =
      DefaultBackoff.factor * backoffDelay DefaultBackoff i) := by
  refine ⟨fun _ => rfl, ?_, ?_, ?_⟩
  · intro k hk hok hprev
    exact retryOnError_first_ok att shouldRetry (fun _ => rfl) DefaultBackoff.steps 0 k hk
      (by simpa using hok) (fun j hj => by simpa using hprev j hj)
  · intro f hall
    have h := retryOnError_exhausted att shouldRetry (fun _ => rfl) f DefaultBackoff.steps 0
      (by decide) (fun k hk => by simpa using hall k hk)
    simpa using h
  · intro i
    simp only [backoffDelay, pow_succ]
    ring

/-- C5 witness: with the first two commit attempts failing on a conflict and
the third succeeding, Finalize returns success. -/
theorem finalize_retry_spec_witness : Finalize exampleAttempts = .ok () :=
  (finalize_retry_spec exampleAttempts).2.1 2 (by decide) rfl
    (fun j hj => ⟨"the object has been modified", by interval_cases j <;> rfl⟩)

/-- The last element of a cons is the last element of its nonempty tail. -/
theorem getLast?_cons_ne_nil {α : Type} (a : α) (l : List α) (h : l ≠ []) :
    (a :: l).getLast? = l.getLast? := by
  cases l with
  | nil => exact absurd rfl h
  | cons b t => exact List.getLast?_cons_cons

/-- If every list element either is the scope's own machine or is strictly
older than the candidate, the scan keeps the candidate. -/
theorem findLatestLoop_keep (selfName : String) (cand : IonosCloudMachine) :
    ∀ ms : List IonosCloudMachine,
      (∀ x ∈ ms, x.name = selfName ∨ x.creationTimestamp < cand.creationTimestamp) →
      findLatestLoop selfName cand ms = cand := by
  intro ms
  induction ms with
  | nil => intro _; rfl
  | cons m rest ih =>
    intro h
    have hm := h m (List.mem_cons_self m rest)
    simp only [findLatestLoop]
    rw [if_neg]
    · exact ih (fun x hx => h x (List.mem_cons_of_mem m hx))
    · rcases hm with hm | hm
      · exact fun hc => hc.2 hm
      · exact fun hc => hc.1 hm

/-- With every timestamp in the list and the candidate's bounded by `M`, the
scan ends on the last non-self element carrying timestamp `M`, when one
exists. -/
theorem findLatestLoop_last_max (selfName : String) (M : Nat) :
    ∀ (ms : List IonosCloudMachine) (cand l : IonosCloudMachine),
      (∀ x ∈ ms, x.creationTimestamp ≤ M) →
      cand.creationTimestamp ≤ M →
      (ms.filter fun x => x.name != selfName && x.creationTimestamp == M).getLast? = some l →
      findLatestLoop selfName cand ms = l := by
  intro ms
  induction ms with
  | nil =>
    intro cand l _ _ hlast
    simp at hlast
  | cons m rest ih =>
    intro cand l hbound hcand hlast
    by_cases hrest : (rest.filter fun x => x.name != selfName && x.creationTimestamp == M) = []
    · by_cases hpm : (m.name != selfName && m.creationTimestamp == M) = true
      · rw [List.filter_cons, if_pos hpm, hrest] at hlast
        have hlm : m = l := by simpa using hlast
        subst hlm
        obtain ⟨hmn, hmt⟩ : m.name ≠ selfName ∧ m.creationTimestamp = M := by simpa using hpm
        have hmc : ¬ m.creationTimestamp < cand.creationTimestamp := by omega
        simp only [findLatestLoop]
        rw [if_pos ⟨hmc, hmn⟩]
        apply findLatestLoop_keep
        intro x hx
        have hxb := hbound x (List.mem_cons_of_mem m hx)
        have hnp : ¬ (x.name != selfName && x.creationTimestamp == M) = true :=
          (List.filter_eq_nil_iff.mp hrest) x hx
        rcases Decidable.em (x.name = selfName) with hxs | hxs
        · exact Or.inl hxs
        · refine Or.inr ?_
          have hxm : x.creationTimestamp ≠ M := by
            intro hEq
            exact hnp (by simp [hxs, hEq])
          omega
      · rw [List.filter_cons, if_neg hpm, hrest] at hlast
        simp at hlast
    · have hlast' :
          (rest.filter fun x => x.name != selfName && x.creationTimestamp == M).getLast? =
            some l := by
        rw [List.filter_cons] at hlast
        by_cases hpm : (m.name != selfName && m.creationTimestamp == M) = true
        · rw [if_pos hpm, getLast?_cons_ne_nil m _ hrest] at hlast
          exact hlast
        · rwa [if_neg hpm] at hlast
      have hboundRest : ∀ x ∈ rest, x.creationTimestamp ≤ M :=
        fun x hx => hbound x (List.mem_cons_of_mem m hx)
      simp only [findLatestLoop]
      by_cases hc : ¬ m.creationTimestamp < cand.creationTimestamp ∧ m.name ≠ selfName
      · rw [if_pos hc]
        exact ih m l hboundRest (hbound m (List.mem_cons_self m rest)) hlast'
      · rw [if_neg hc]
        exact ih cand l hboundRest hcand hlast'

/-- C8: whenever more than one machine other than the scope's own record
attains the maximal creation timestamp `M` of the list, FindLatestMachine
returns the last of those tied machines in the input ordering. -/
theorem findLatestMachine_tiebreak_last (selfName : String) (ms : List IonosCloudMachine)
    (M : Nat) (hmax : ∀ x ∈ ms, x.creationTimestamp ≤ M)
    (htied : 2 ≤ (ms.filter fun x => x.name != selfName && x.creationTimestamp == M).length) :
    FindLatestMachine selfName ms =
      (ms.filter fun x => x.name != selfName && x.creationTimestamp == M).getLast? := by
  cases ms with
  | nil => simp at htied
  | cons m0 rest =>
    have hne : ((m0 :: rest).filter fun x =>
        x.name != selfName && x.creationTimestamp == M) ≠ [] := by
      intro h
      rw [h] at htied
      simp at htied
    obtain ⟨l, hl⟩ : ∃ l, ((m0 :: rest).filter fun x =>
        x.name != selfName && x.creationTimestamp == M).getLast? = some l :=
      ⟨_, List.getLast?_eq_getLast_of_ne_nil hne⟩
    have hlen : 2 ≤ (m0 :: rest).length :=
      le_trans htied (List.length_filter_le _ _)
    have hlmem : l ∈ (m0 :: rest).filter fun x =>
        x.name != selfName && x.creationTimestamp == M := by
      obtain ⟨hh, hx⟩ := List.mem_getLast?_eq_getLast (Option.mem_def.mpr hl)
      rw [hx]
      exact List.getLast_mem hh
    have hlp := (List.mem_filter.mp hlmem).2
    have hlname : l.name ≠ selfName := by
      simp only [Bool.and_eq_true, bne_iff_ne] at hlp
      exact hlp.1
    have hloop := findLatestLoop_last_max selfName M (m0 :: rest) m0 l hmax
      (hmax m0 (List.mem_cons_self m0 rest)) hl
    simp only [FindLatestMachine]
    rw [if_neg (by omega : ¬ (m0 :: rest).length ≤ 1)]
    rw [hloop, if_neg hlname]
    exact hl.symm

/-- C8 witness: with own record "m1"@0 and tied non-self machines "a"@5 and
"b"@5, the later-encountered "b"@5 is returned. -/
theorem findLatestMachine_tiebreak_last_witness :
    FindLatestMachine "m1" [mkMachine "m1" 0, mkMachine "a" 5, mkMachine "b" 5] =
      some (mkMachine "b" 5) :=
  (findLatestMachine_tiebreak_last "m1"
    [mkMachine "m1" 0, mkMachine "a" 5, mkMachine "b" 5] 5 (by decide) (by decide)).trans rfl

end Scope
